import Mathlib

/-!
Verification development for the agent orchestration core of the
terraform-llm repository: the per-agent task queue and lifecycle state
machine (`src/server/agents/base-agent.ts`), the archetype handler tables
(`src/server/agents/infrastructure-agent.ts` and the LearningAgent), the
registry/supervisor (`src/server/agents/agent-manager.ts`), and the
in-memory persistence store (`MemStorage` in `src/server/storage.ts`).

TypeScript async methods are embedded as pure state-transformation
functions.  The drain loop `BaseAgent.processQueue` is embedded as a
small-step machine whose steps are the atomic segments between `await`
boundaries (each `MemStorage` operation has no internal `await`, so a
storage write belongs to the synchronous segment that issues it); external
calls (`stop`, `start`, `addTask`) are interposed between steps, exactly
as the single-threaded event loop allows.
-/

namespace TerraformLLM

/-- AgentTask from base-agent.ts: `id`, `type` (called `kind` here because
`type` is a Lean keyword), `payload` (opaque, modelled as a string) and
`priority`. -/
structure AgentTask where
  id : String
  kind : String
  payload : String
  priority : Int
  deriving Repr, DecidableEq

/-- insertion step of a stable descending-priority sort: the incoming task
is placed after every task whose priority is greater than or equal to its
own.  `BaseAgent.addTask` pushes the task and then calls
`Array.prototype.sort` with the comparator `(a, b) => b.priority -
a.priority`; ECMAScript 2019 requires `sort` to be stable, and for a total
comparator the stable sorted permutation of the input is unique, so the
queue the code produces is the one computed by the left-fold insertion
sort `jsSortDesc` below. -/
def insDesc (t : AgentTask) : List AgentTask → List AgentTask
  | [] => [t]
  | h :: rest => if t.priority ≤ h.priority then h :: insDesc t rest else t :: h :: rest

/-- jsSortDesc models `queue.sort((a, b) => b.priority - a.priority)` on a
queue whose elements were appended left to right: each element is stably
inserted into the already sorted prefix. -/
def jsSortDesc (l : List AgentTask) : List AgentTask :=
  l.foldl (fun acc t => insDesc t acc) []

/-- queue effect of `BaseAgent.addTask`: `this.taskQueue.push(task);
this.taskQueue.sort((a, b) => b.priority - a.priority)`. -/
def pushAndSort (q : List AgentTask) (t : AgentTask) : List AgentTask :=
  jsSortDesc (q ++ [t])

/-- queue contents after a sequence of `addTask` calls starting from the
empty queue of a fresh worker. -/
def queueAfter (ts : List AgentTask) : List AgentTask :=
  ts.foldl pushAndSort []

/-- weak descending order on priorities: the order in which the queue is
kept sorted. -/
def weakDesc (a b : AgentTask) : Prop := b.priority ≤ a.priority

instance : DecidablePred fun p : AgentTask × AgentTask => weakDesc p.1 p.2 := by
  intro p
  unfold weakDesc
  infer_instance

theorem mem_insDesc {x t : AgentTask} {l : List AgentTask} :
    x ∈ insDesc t l ↔ x = t ∨ x ∈ l := by
  induction l with
  | nil => simp [insDesc]
  | cons h rest ih =>
      by_cases hc : t.priority ≤ h.priority
      · simp only [insDesc, if_pos hc, List.mem_cons, ih]
        tauto
      · simp only [insDesc, if_neg hc, List.mem_cons]

theorem insDesc_sorted {t : AgentTask} {l : List AgentTask}
    (hl : l.Pairwise weakDesc) : (insDesc t l).Pairwise weakDesc := by
  induction l with
  | nil => simp [insDesc, List.pairwise_singleton]
  | cons h rest ih =>
      rcases List.pairwise_cons.mp hl with ⟨hhead, htail⟩
      by_cases hc : t.priority ≤ h.priority
      · simp only [insDesc, if_pos hc]
        refine List.pairwise_cons.mpr ⟨?_, ih htail⟩
        intro y hy
        rcases mem_insDesc.mp hy with rfl | hy2
        · exact hc
        · exact hhead y hy2
      · push_neg at hc
        simp only [insDesc, if_neg (not_le.mpr hc)]
        refine List.pairwise_cons.mpr ⟨?_, hl⟩
        intro y hy
        rcases List.mem_cons.mp hy with rfl | hy2
        · exact le_of_lt hc
        · exact le_trans (hhead y hy2) (le_of_lt hc)

theorem insDesc_of_le {t : AgentTask} {l : List AgentTask}
    (h : ∀ y ∈ l, t.priority ≤ y.priority) : insDesc t l = l ++ [t] := by
  induction l with
  | nil => simp [insDesc]
  | cons a rest ih =>
      have ha : t.priority ≤ a.priority := h a (List.mem_cons_self a rest)
      simp only [insDesc, if_pos ha, List.cons_append, List.cons.injEq, true_and]
      exact ih fun y hy => h y (List.mem_cons_of_mem a hy)

theorem foldl_insDesc_of_sorted :
    ∀ (rest acc : List AgentTask), (acc ++ rest).Pairwise weakDesc →
      rest.foldl (fun a x => insDesc x a) acc = acc ++ rest := by
  intro rest
  induction rest with
  | nil => intro acc _; simp
  | cons r rest ih =>
      intro acc hsorted
      have hle : ∀ y ∈ acc, r.priority ≤ y.priority := by
        intro y hy
        have := (List.pairwise_append.mp hsorted).2.2 y hy r (List.mem_cons_self r rest)
        exact this
      have hins : insDesc r acc = acc ++ [r] := insDesc_of_le hle
      have hassoc : (acc ++ [r]) ++ rest = acc ++ r :: rest := by
        simp
      simp only [List.foldl_cons, hins]
      rw [ih (acc ++ [r]) (by rw [hassoc]; exact hsorted)]
      rw [hassoc]

theorem jsSortDesc_of_sorted {l : List AgentTask}
    (h : l.Pairwise weakDesc) : jsSortDesc l = l := by
  have := foldl_insDesc_of_sorted l [] (by simpa using h)
  simpa [jsSortDesc] using this

theorem foldl_insDesc_sorted :
    ∀ (l acc : List AgentTask), acc.Pairwise weakDesc →
      (l.foldl (fun a x => insDesc x a) acc).Pairwise weakDesc := by
  intro l
  induction l with
  | nil => intro acc h; simpa using h
  | cons x l ih =>
      intro acc h
      simp only [List.foldl_cons]
      exact ih _ (insDesc_sorted h)

theorem jsSortDesc_sorted (l : List AgentTask) :
    (jsSortDesc l).Pairwise weakDesc :=
  foldl_insDesc_sorted l [] (by simp)

theorem insDesc_perm (t : AgentTask) (l : List AgentTask) :
    (insDesc t l).Perm (t :: l) := by
  induction l with
  | nil => simp [insDesc]
  | cons h rest ih =>
      by_cases hc : t.priority ≤ h.priority
      · simp only [insDesc, if_pos hc]
        exact (ih.cons h).trans (List.Perm.swap t h rest)
      · simp [insDesc, if_neg hc]

theorem foldl_insDesc_perm :
    ∀ (l acc : List AgentTask),
      (l.foldl (fun a x => insDesc x a) acc).Perm (acc ++ l) := by
  intro l
  induction l with
  | nil => intro acc; simp
  | cons x l ih =>
      intro acc
      simp only [List.foldl_cons]
      exact (ih (insDesc x acc)).trans
        (((insDesc_perm x acc).append_right l).trans List.perm_middle.symm)

theorem jsSortDesc_perm (l : List AgentTask) : (jsSortDesc l).Perm l := by
  simpa [jsSortDesc] using foldl_insDesc_perm l []

theorem jsSortDesc_idem (l : List AgentTask) :
    jsSortDesc (jsSortDesc l) = jsSortDesc l :=
  jsSortDesc_of_sorted (jsSortDesc_sorted l)

theorem jsSortDesc_append_singleton (q : List AgentTask) (t : AgentTask) :
    jsSortDesc (q ++ [t]) = insDesc t (jsSortDesc q) := by
  simp [jsSortDesc, List.foldl_append]

theorem queueAfter_eq_jsSortDesc (ts : List AgentTask) :
    queueAfter ts = jsSortDesc ts := by
  induction ts using List.reverseRecOn with
  | nil => simp [queueAfter, jsSortDesc]
  | append_singleton ts t ih =>
      have h1 : queueAfter (ts ++ [t]) = pushAndSort (queueAfter ts) t := by
        simp [queueAfter, List.foldl_append]
      rw [h1, pushAndSort, ih, jsSortDesc_append_singleton, jsSortDesc_idem,
        ← jsSortDesc_append_singleton]

theorem queueAfter_perm (ts : List AgentTask) : (queueAfter ts).Perm ts := by
  rw [queueAfter_eq_jsSortDesc]
  exact jsSortDesc_perm ts

theorem queueAfter_sorted (ts : List AgentTask) :
    (queueAfter ts).Pairwise weakDesc := by
  rw [queueAfter_eq_jsSortDesc]
  exact jsSortDesc_sorted ts

/-- verification device for the stability statement: the same insertion
step applied to tasks tagged with their enqueue position.  The comparator
reads only the priority, exactly as the comparator in the code does. -/
def insDescT (t : Nat × AgentTask) : List (Nat × AgentTask) → List (Nat × AgentTask)
  | [] => [t]
  | h :: rest =>
      if t.2.priority ≤ h.2.priority then h :: insDescT t rest else t :: h :: rest

/-- tagged version of `jsSortDesc`. -/
def jsSortDescT (l : List (Nat × AgentTask)) : List (Nat × AgentTask) :=
  l.foldl (fun acc t => insDescT t acc) []

/-- total order realised by the drain: priority strictly descending, and
for equal priorities the enqueue position (the tag) strictly ascending. -/
def strictStable (a b : Nat × AgentTask) : Prop :=
  b.2.priority < a.2.priority ∨ (a.2.priority = b.2.priority ∧ a.1 < b.1)

instance : DecidablePred fun p : (Nat × AgentTask) × (Nat × AgentTask) => strictStable p.1 p.2 := by
  intro p
  unfold strictStable
  infer_instance

theorem insDescT_snd (t : Nat × AgentTask) (l : List (Nat × AgentTask)) :
    (insDescT t l).map Prod.snd = insDesc t.2 (l.map Prod.snd) := by
  induction l with
  | nil => simp [insDescT, insDesc]
  | cons h rest ih =>
      by_cases hc : t.2.priority ≤ h.2.priority
      · simp [insDescT, insDesc, if_pos hc, ih]
      · simp [insDescT, insDesc, if_neg hc]

theorem jsSortDescT_snd (l : List (Nat × AgentTask)) :
    (jsSortDescT l).map Prod.snd = jsSortDesc (l.map Prod.snd) := by
  suffices h : ∀ (l acc : List (Nat × AgentTask)),
      (l.foldl (fun acc t => insDescT t acc) acc).map Prod.snd =
        (l.map Prod.snd).foldl (fun acc t => insDesc t acc) (acc.map Prod.snd) by
    simpa [jsSortDescT, jsSortDesc] using h l []
  intro l
  induction l with
  | nil => intro acc; simp
  | cons x l ih =>
      intro acc
      simp only [List.foldl_cons, List.map_cons, ih, insDescT_snd]

theorem mem_insDescT {x t : Nat × AgentTask} {l : List (Nat × AgentTask)} :
    x ∈ insDescT t l ↔ x = t ∨ x ∈ l := by
  induction l with
  | nil => simp [insDescT]
  | cons h rest ih =>
      by_cases hc : t.2.priority ≤ h.2.priority
      · simp only [insDescT, if_pos hc, List.mem_cons, ih]
        tauto
      · simp only [insDescT, if_neg hc, List.mem_cons]

theorem insDescT_stable {t : Nat × AgentTask} {l : List (Nat × AgentTask)}
    (hl : l.Pairwise strictStable) (htag : ∀ x ∈ l, x.1 < t.1) :
    (insDescT t l).Pairwise strictStable := by
  induction l with
  | nil => simp [insDescT, List.pairwise_singleton]
  | cons h rest ih =>
      rcases List.pairwise_cons.mp hl with ⟨hhead, htail⟩
      by_cases hc : t.2.priority ≤ h.2.priority
      · simp only [insDescT, if_pos hc]
        refine List.pairwise_cons.mpr
          ⟨?_, ih htail fun x hx => htag x (List.mem_cons_of_mem h hx)⟩
        intro y hy
        rcases mem_insDescT.mp hy with rfl | hy2
        · rcases lt_or_eq_of_le hc with hlt | heq
          · exact Or.inl hlt
          · exact Or.inr ⟨heq.symm, htag h (List.mem_cons_self h rest)⟩
        · exact hhead y hy2
      · push_neg at hc
        simp only [insDescT, if_neg (not_le.mpr hc)]
        refine List.pairwise_cons.mpr ⟨?_, hl⟩
        intro y hy
        rcases List.mem_cons.mp hy with rfl | hy2
        · exact Or.inl hc
        · rcases hhead y hy2 with hlt | ⟨heq, _⟩
          · exact Or.inl (lt_trans hlt hc)
          · exact Or.inl (heq ▸ hc)

theorem jsSortDescT_stable {l : List (Nat × AgentTask)}
    (h : l.Pairwise fun a b => a.1 < b.1) :
    (jsSortDescT l).Pairwise strictStable := by
  suffices haux : ∀ (l acc : List (Nat × AgentTask)),
      acc.Pairwise strictStable →
      (∀ x ∈ acc, ∀ y ∈ l, x.1 < y.1) →
      (l.Pairwise fun a b => a.1 < b.1) →
      (l.foldl (fun acc t => insDescT t acc) acc).Pairwise strictStable by
    exact haux l [] (by simp) (by simp) h
  intro l
  induction l with
  | nil => intro acc hacc _ _; simpa using hacc
  | cons x l ih =>
      intro acc hacc hcross hl
      rcases List.pairwise_cons.mp hl with ⟨hxl, hltail⟩
      simp only [List.foldl_cons]
      refine ih (insDescT x acc)
        (insDescT_stable hacc fun z hz => hcross z hz x (List.mem_cons_self x l))
        ?_ hltail
      intro z hz y hy
      rcases mem_insDescT.mp hz with rfl | hz2
      · exact hxl y hy
      · exact hcross z hz2 y (List.mem_cons_of_mem x hy)

theorem le_fst_of_mem_enumFrom {x : Nat × AgentTask} :
    ∀ {n : Nat} {l : List AgentTask}, x ∈ l.enumFrom n → n ≤ x.1 := by
  intro n l
  induction l generalizing n with
  | nil => intro h; simp [List.enumFrom] at h
  | cons a l ih =>
      intro h
      rcases List.mem_cons.mp h with rfl | h2
      · exact le_refl n
      · exact le_trans (Nat.le_succ n) (ih h2)

theorem pairwise_fst_lt_enumFrom :
    ∀ (n : Nat) (l : List AgentTask),
      (l.enumFrom n).Pairwise fun a b => a.1 < b.1 := by
  intro n l
  induction l generalizing n with
  | nil => simp [List.enumFrom]
  | cons a l ih =>
      refine List.pairwise_cons.mpr ⟨?_, ih (n + 1)⟩
      intro y hy
      exact lt_of_lt_of_le (Nat.lt_succ_self n) (le_fst_of_mem_enumFrom hy)

theorem pairwise_fst_lt_enum (l : List AgentTask) :
    l.enum.Pairwise fun a b => a.1 < b.1 :=
  pairwise_fst_lt_enumFrom 0 l

theorem enum_map_snd (l : List AgentTask) : l.enum.map Prod.snd = l :=
  List.enum_map_snd l

/-- stability of the code's queue order: sorting the enqueue sequence
tagged with its positions yields a list that is pairwise ordered by
(priority strictly descending, tag strictly ascending), and whose
untagged projection is exactly the queue the code builds. -/
theorem queueAfter_stable (ts : List AgentTask) :
    (jsSortDescT ts.enum).map Prod.snd = queueAfter ts ∧
    (jsSortDescT ts.enum).Pairwise strictStable := by
  constructor
  · rw [jsSortDescT_snd, enum_map_snd, queueAfter_eq_jsSortDesc]
  · exact jsSortDescT_stable (pairwise_fst_lt_enum ts)

/-- persisted Agent record fields the core mutates.  `MemStorage.createAgent`
initialises status "idle", currentTask null, progress 0, and
`MemStorage.updateAgent` applies partial updates as a last-write-wins
merge. -/
structure AgentRecord where
  status : String
  currentTask : Option String
  progress : Int
  deriving Repr, DecidableEq

/-- SystemLog entry as created by `BaseAgent.log` through
`storage.createSystemLog`; metadata holds the error message when present. -/
structure LogEntry where
  level : String
  message : String
  metadata : Option String
  deriving Repr, DecidableEq

/-- observable behaviour of one `executeTask(task)` invocation: the
progress values it reports through `updateProgress`, in order, and its
outcome (`none` for a normal return, `some e` when it throws an error
whose message is `e`). -/
structure HandlerRun where
  writes : List Int
  outcome : Option String
  deriving Repr, DecidableEq

/-- control position of the `processQueue` drain loop, one constructor per
atomic segment between `await` boundaries.  `loopHead` is the while-test
(a true test pops the head task, assigns `this.currentTask` and performs
the `updateStatus('working', kind)` write in one synchronous segment; a
false test performs the `if (this.isRunning) updateStatus('running')`
exit segment); `logStart` is the "Starting task" log write; `execute`
holds the handler's still-pending progress writes and its outcome;
reaching `execute t [] oc` performs the completion log (or the error log
plus the `taskError` emission); `finallyStep` is the `finally` block. -/
inductive Phase where
  | notDraining : Phase
  | loopHead : Phase
  | logStart : AgentTask → Phase
  | execute : AgentTask → List Int → Option String → Phase
  | finallyStep : AgentTask → Phase
  deriving Repr, DecidableEq

/-- full state of one worker: the in-memory `BaseAgent` fields
(`isRunning`, `taskQueue`, `currentTask`), the persisted Agent row, the
SystemLog entries written so far, the emitted `taskError` events (task id,
error message), a ghost list of the tasks popped by the drain loop in
order, and the drain-loop control position. -/
structure WState where
  isRunning : Bool
  taskQueue : List AgentTask
  currentTask : Option AgentTask
  agent : AgentRecord
  logs : List LogEntry
  errEvents : List (String × String)
  dequeued : List AgentTask
  phase : Phase
  deriving Repr, DecidableEq

def infoEntry (msg : String) : LogEntry :=
  { level := "info", message := msg, metadata := none }

def startEntry (t : AgentTask) : LogEntry :=
  { level := "info", message := "Starting task: " ++ t.kind, metadata := none }

def doneEntry (t : AgentTask) : LogEntry :=
  { level := "info", message := "Completed task: " ++ t.kind, metadata := none }

def failEntry (t : AgentTask) (e : String) : LogEntry :=
  { level := "error", message := "Task failed: " ++ t.kind, metadata := some e }

def outcomeEntry (t : AgentTask) : Option String → LogEntry
  | none => doneEntry t
  | some e => failEntry t e

/-- BaseAgent constructor combined with the `MemStorage.createAgent`
defaults: a fresh worker is not running, has an empty queue and no current
task, and its persisted record is status "idle", currentTask null,
progress 0. -/
def initWState : WState :=
  { isRunning := false, taskQueue := [], currentTask := none,
    agent := { status := "idle", currentTask := none, progress := 0 },
    logs := [], errEvents := [], dequeued := [], phase := .notDraining }

/-- BaseAgent.start: a no-op when already running; otherwise it sets the
flag, persists status "running" (`updateStatus` is called without a
current task, so the merge writes currentTask null), logs "Agent started"
and invokes `this.processQueue()`, entering the drain loop. -/
def startEv (s : WState) : WState :=
  if s.isRunning then s
  else
    { s with isRunning := true,
             agent := { s.agent with status := "running", currentTask := none },
             logs := s.logs ++ [infoEntry "Agent started"],
             phase := .loopHead }

/-- BaseAgent.stop: clears the flag, persists status "idle" (again with
currentTask null) and logs "Agent stopped".  The drain-loop position is
untouched: a task in flight keeps running. -/
def stopEv (s : WState) : WState :=
  { s with isRunning := false,
           agent := { s.agent with status := "idle", currentTask := none },
           logs := s.logs ++ [infoEntry "Agent stopped"] }

/-- BaseAgent.addTask: push the task and stable-sort the queue by
descending priority; if the worker is running and no task is current,
`this.processQueue()` is invoked, entering the drain loop. -/
def addTaskEv (t : AgentTask) (s : WState) : WState :=
  let s2 := { s with taskQueue := pushAndSort s.taskQueue t }
  if s2.isRunning && s2.currentTask.isNone then { s2 with phase := .loopHead } else s2

/-- one atomic segment of the drain loop `processQueue`; `beh` gives the
observable behaviour of `executeTask` on each task. -/
def step (beh : AgentTask → HandlerRun) (s : WState) : WState :=
  match s.phase with
  | .notDraining => s
  | .loopHead =>
      if s.isRunning then
        match s.taskQueue with
        | t :: rest =>
            { s with taskQueue := rest, currentTask := some t,
                     agent := { s.agent with status := "working", currentTask := some t.kind },
                     dequeued := s.dequeued ++ [t],
                     phase := .logStart t }
        | [] =>
            { s with agent := { s.agent with status := "running", currentTask := none },
                     phase := .notDraining }
      else { s with phase := .notDraining }
  | .logStart t =>
      { s with logs := s.logs ++ [startEntry t],
               phase := .execute t (beh t).writes (beh t).outcome }
  | .execute t (w :: ws) oc =>
      { s with agent := { s.agent with progress := w },
               phase := .execute t ws oc }
  | .execute t [] oc =>
      match oc with
      | none => { s with logs := s.logs ++ [doneEntry t], phase := .finallyStep t }
      | some e =>
          { s with logs := s.logs ++ [failEntry t e],
                   errEvents := s.errEvents ++ [(t.id, e)],
                   phase := .finallyStep t }
  | .finallyStep _ =>
      { s with currentTask := none,
               agent := { s.agent with progress := 0 },
               phase := .loopHead }

/-- iterate the drain loop for n atomic segments. -/
def stepN (beh : AgentTask → HandlerRun) : Nat → WState → WState
  | 0, s => s
  | n + 1, s => stepN beh n (step beh s)

theorem stepN_add (beh : AgentTask → HandlerRun) (m n : Nat) (s : WState) :
    stepN beh (m + n) s = stepN beh n (stepN beh m s) := by
  induction m generalizing s with
  | zero => simp [stepN]
  | succ m ih =>
      have h : m + 1 + n = (m + n) + 1 := by omega
      rw [h]
      simp only [stepN]
      exact ih (step beh s)

/-- number of atomic segments one task occupies: the pop/working segment,
the start log, one per progress write, the outcome segment and the finally
block. -/
def taskSteps (beh : AgentTask → HandlerRun) (t : AgentTask) : Nat :=
  (beh t).writes.length + 4

/-- number of atomic segments a full drain of queue q takes, including the
loop-exit segment. -/
def drainSteps (beh : AgentTask → HandlerRun) (q : List AgentTask) : Nat :=
  q.foldr (fun t acc => taskSteps beh t + acc) 1

/-- SystemLog entries one task contributes to the drain. -/
def taskLogs (beh : AgentTask → HandlerRun) (t : AgentTask) : List LogEntry :=
  [startEntry t, outcomeEntry t (beh t).outcome]

def drainLogs (beh : AgentTask → HandlerRun) (q : List AgentTask) : List LogEntry :=
  q.foldr (fun t acc => taskLogs beh t ++ acc) []

/-- taskError events one task contributes: one exactly when its handler
fails. -/
def taskErrs (beh : AgentTask → HandlerRun) (t : AgentTask) : List (String × String) :=
  match (beh t).outcome with
  | none => []
  | some e => [(t.id, e)]

def drainErrs (beh : AgentTask → HandlerRun) (q : List AgentTask) : List (String × String) :=
  q.foldr (fun t acc => taskErrs beh t ++ acc) []

theorem cons_getLastD (w d : Int) (ws : List Int) :
    (w :: ws).getLast?.getD d = ws.getLast?.getD w := by
  induction ws generalizing w d with
  | nil => simp
  | cons x ws ih =>
      rw [List.getLast?_cons_cons, ih x d, ih x w]

theorem exec_writes_spec (beh : AgentTask → HandlerRun) (t : AgentTask) (oc : Option String) :
    ∀ (ws : List Int) (s : WState), s.phase = .execute t ws oc →
      stepN beh ws.length s =
        { s with agent := { s.agent with progress := ws.getLastD s.agent.progress },
                 phase := .execute t [] oc } := by
  intro ws
  induction ws with
  | nil =>
      intro s hp
      simp only [List.length_nil, stepN, List.getLastD]
      rw [← hp]
  | cons w ws ih =>
      intro s hp
      simp only [List.length_cons, stepN]
      rw [show step beh s =
            { s with agent := { s.agent with progress := w },
                     phase := .execute t ws oc } from by simp [step, hp]]
      rw [ih _ rfl]
      simp [cons_getLastD]

theorem task_spec (beh : AgentTask → HandlerRun) (t : AgentTask) (rest : List AgentTask)
    (s : WState) (hp : s.phase = .loopHead) (hrun : s.isRunning = true)
    (hq : s.taskQueue = t :: rest) :
    stepN beh (taskSteps beh t) s =
      { s with taskQueue := rest, currentTask := none,
               agent := { status := "working", currentTask := some t.kind, progress := 0 },
               logs := s.logs ++ taskLogs beh t,
               errEvents := s.errEvents ++ taskErrs beh t,
               dequeued := s.dequeued ++ [t],
               phase := .loopHead } := by
  have h1 : taskSteps beh t = 2 + ((beh t).writes.length + 2) := by
    unfold taskSteps
    omega
  rw [h1, stepN_add]
  rw [show stepN beh 2 s =
        { s with taskQueue := rest, currentTask := some t,
                 agent := { s.agent with status := "working", currentTask := some t.kind },
                 logs := s.logs ++ [startEntry t],
                 dequeued := s.dequeued ++ [t],
                 phase := .execute t (beh t).writes (beh t).outcome } from by
    simp [stepN, step, hp, hrun, hq]]
  rw [stepN_add, exec_writes_spec beh t (beh t).outcome (beh t).writes _ rfl]
  rcases hoc : (beh t).outcome with _ | e
  · simp [stepN, step, hoc, taskLogs, taskErrs, outcomeEntry, List.append_assoc]
  · simp [stepN, step, hoc, taskLogs, taskErrs, outcomeEntry, List.append_assoc]

theorem drain_spec (beh : AgentTask → HandlerRun) :
    ∀ (q : List AgentTask) (s : WState), s.phase = .loopHead → s.isRunning = true →
      s.taskQueue = q →
      stepN beh (drainSteps beh q) s =
        { s with taskQueue := [],
                 currentTask := if q.isEmpty then s.currentTask else none,
                 agent := { status := "running", currentTask := none,
                            progress := if q.isEmpty then s.agent.progress else 0 },
                 logs := s.logs ++ drainLogs beh q,
                 errEvents := s.errEvents ++ drainErrs beh q,
                 dequeued := s.dequeued ++ q,
                 phase := .notDraining } := by
  intro q
  induction q with
  | nil =>
      intro s hp hrun hq
      simp [drainSteps, stepN, step, hp, hrun, hq, drainLogs, drainErrs]
  | cons t rest ih =>
      intro s hp hrun hq
      have h1 : drainSteps beh (t :: rest) = taskSteps beh t + drainSteps beh rest := by
        simp [drainSteps]
      rw [h1, stepN_add, task_spec beh t rest s hp hrun hq]
      rw [ih _ rfl (by simpa using hrun) rfl]
      simp [drainLogs, drainErrs, List.append_assoc]

/-- number of atomic segments remaining until the current loop iteration
returns to the while-test, when the loop is inside an iteration body. -/
def remInTask (beh : AgentTask → HandlerRun) : Phase → Option Nat
  | .logStart t => some ((beh t).writes.length + 3)
  | .execute _ ws _ => some (ws.length + 2)
  | .finallyStep _ => some 1
  | _ => none

/-- true when the drain loop is inside the body of the while, processing
one task. -/
def inTaskB : Phase → Bool
  | .logStart _ => true
  | .execute _ _ _ => true
  | .finallyStep _ => true
  | _ => false

theorem inTaskB_of_remInTask {beh : AgentTask → HandlerRun} {ph : Phase} {k : Nat}
    (h : remInTask beh ph = some k) : inTaskB ph = true := by
  cases ph <;> simp_all [remInTask, inTaskB]

theorem rem_step (beh : AgentTask → HandlerRun) (s : WState) (k : Nat)
    (h : remInTask beh s.phase = some k) :
    (step beh s).agent.status = s.agent.status ∧
    (step beh s).agent.currentTask = s.agent.currentTask ∧
    (step beh s).isRunning = s.isRunning ∧
    (step beh s).taskQueue = s.taskQueue ∧
    (2 ≤ k → remInTask beh (step beh s).phase = some (k - 1)) := by
  rcases hp : s.phase with _ | _ | t | ⟨t, ws, oc⟩ | t
  · simp [remInTask, hp] at h
  · simp [remInTask, hp] at h
  · simp only [remInTask, hp, Option.some.injEq] at h
    subst h
    simp [step, hp, remInTask]
  · rcases ws with _ | ⟨w, ws⟩
    · simp only [remInTask, hp, Option.some.injEq, List.length_nil] at h
      subst h
      rcases oc with _ | e <;> simp [step, hp, remInTask]
    · simp only [remInTask, hp, Option.some.injEq, List.length_cons] at h
      subst h
      refine ⟨by simp [step, hp], by simp [step, hp], by simp [step, hp],
        by simp [step, hp], ?_⟩
      intro _
      simp [step, hp, remInTask]
  · simp only [remInTask, hp, Option.some.injEq] at h
    subst h
    simp [step, hp, remInTask]

/-- while the drain loop is inside one task's iteration, the persisted
status and current-task label, the continue flag and the queue are not
modified, and the loop stays inside the iteration until its segments are
exhausted. -/
theorem task_window (beh : AgentTask → HandlerRun) :
    ∀ (j k : Nat) (s : WState), remInTask beh s.phase = some k → j ≤ k →
      (stepN beh j s).agent.status = s.agent.status ∧
      (stepN beh j s).agent.currentTask = s.agent.currentTask ∧
      (stepN beh j s).isRunning = s.isRunning ∧
      (stepN beh j s).taskQueue = s.taskQueue ∧
      (j < k → inTaskB (stepN beh j s).phase = true) := by
  intro j
  induction j with
  | zero =>
      intro k s h _
      exact ⟨rfl, rfl, rfl, rfl, fun _ => inTaskB_of_remInTask h⟩
  | succ j ih =>
      intro k s h hj
      have hk1 : 1 ≤ k := le_trans (Nat.succ_le_succ (Nat.zero_le j)) hj
      obtain ⟨h1, h2, h3, h4, h5⟩ := rem_step beh s k h
      by_cases h2k : 2 ≤ k
      · obtain ⟨g1, g2, g3, g4, g5⟩ := ih (k - 1) (step beh s) (h5 h2k) (by omega)
        have hsn : stepN beh (j + 1) s = stepN beh j (step beh s) := rfl
        refine ⟨by rw [hsn, g1, h1], by rw [hsn, g2, h2], by rw [hsn, g3, h3],
          by rw [hsn, g4, h4], ?_⟩
        intro hjk
        rw [hsn]
        exact g5 (by omega)
      · have hkeq : k = 1 := by omega
        have hjeq : j = 0 := by omega
        subst hkeq hjeq
        exact ⟨h1, h2, h3, h4, by omega⟩

/-- worker whose `start()` call has completed and whose initial (empty)
queue drain has settled. -/
def startedWorker (beh : AgentTask → HandlerRun) : WState :=
  stepN beh 1 (startEv initWState)

/-- started worker on which one task has been enqueued by `addTask`. -/
def oneTaskState (beh : AgentTask → HandlerRun) (t : AgentTask) : WState :=
  addTaskEv t (startedWorker beh)

/-- state one segment later: the drain loop has popped the task and
performed the `updateStatus('working', kind)` write. -/
def workingState (beh : AgentTask → HandlerRun) (t : AgentTask) : WState :=
  stepN beh 1 (oneTaskState beh t)

/-- example of the spec sentence: four tasks enqueued with priorities
5, 10, 1, 10, each task's id naming its original enqueue index. -/
def exampleTasks : List AgentTask :=
  [ { id := "0", kind := "a", payload := "", priority := 5 },
    { id := "1", kind := "b", payload := "", priority := 10 },
    { id := "2", kind := "c", payload := "", priority := 1 },
    { id := "3", kind := "d", payload := "", priority := 10 } ]

/-- C1: for every sequence of enqueue (`addTask`) calls on one Worker the
drain loop dequeues the tasks in descending priority order, tasks of equal
priority in their original enqueue order (a stable priority sort): the
queue after the enqueues is a permutation of the enqueued tasks and is the
projection of the stably sorted position-tagged enqueue sequence, which is
pairwise ordered by priority strictly descending with ties broken by
enqueue position ascending; a full drain dequeues exactly that queue in
order; and enqueueing priorities [5, 10, 1, 10] yields the drain order of
original indices [1, 3, 0, 2]. -/
theorem C1_stable_priority_drain (ts : List AgentTask) (beh : AgentTask → HandlerRun) :
    (queueAfter ts).Perm ts ∧
    (jsSortDescT ts.enum).map Prod.snd = queueAfter ts ∧
    (jsSortDescT ts.enum).Pairwise strictStable ∧
    (stepN beh (drainSteps beh (queueAfter ts))
        { startedWorker beh with taskQueue := queueAfter ts,
                                 phase := Phase.loopHead }).dequeued = queueAfter ts ∧
    (queueAfter exampleTasks).map AgentTask.id = ["1", "3", "0", "2"] ∧
    exampleTasks.map AgentTask.priority = [5, 10, 1, 10] := by
  refine ⟨queueAfter_perm ts, (queueAfter_stable ts).1, (queueAfter_stable ts).2, ?_,
    by decide, by decide⟩
  rw [drain_spec beh (queueAfter ts) _ rfl rfl rfl]
  simp [startedWorker, stepN, step, startEv, initWState]

/-- C2: a freshly constructed Worker is idle (isRunning false, no drain
loop active, persisted status "idle"); `start()` moves it to running and
persists that status; enqueueing one task while it is running with an
empty queue makes the persisted status "working" with currentTask set to
the task kind for the whole execution window of that task; and the status
returns to "running" with the drain loop exited once the queue empties. -/
theorem C2_lifecycle (t : AgentTask) (beh : AgentTask → HandlerRun) :
    initWState.isRunning = false ∧
    initWState.phase = Phase.notDraining ∧
    initWState.agent.status = "idle" ∧
    (startEv initWState).agent.status = "running" ∧
    (startedWorker beh).agent.status = "running" ∧
    (startedWorker beh).taskQueue = [] ∧
    (∀ j, j ≤ (beh t).writes.length + 3 →
        (stepN beh j (workingState beh t)).agent.status = "working" ∧
        (stepN beh j (workingState beh t)).agent.currentTask = some t.kind) ∧
    (stepN beh (drainSteps beh [t]) (oneTaskState beh t)).agent.status = "running" ∧
    (stepN beh (drainSteps beh [t]) (oneTaskState beh t)).phase = Phase.notDraining := by
  refine ⟨rfl, rfl, rfl, rfl, rfl, rfl, ?_, ?_, ?_⟩
  · intro j hj
    have hw := task_window beh j ((beh t).writes.length + 3) (workingState beh t) rfl hj
    exact ⟨hw.1, hw.2.1⟩
  · rw [drain_spec beh [t] (oneTaskState beh t) rfl rfl rfl]
  · rw [drain_spec beh [t] (oneTaskState beh t) rfl rfl rfl]

/-- C2 witness: the lifecycle scenario instantiated with a concrete task
and a handler that reports progress 40 and succeeds, observed one segment
into the execution window. -/
theorem C2_lifecycle_witness :
    (let t : AgentTask := { id := "w2", kind := "gen", payload := "", priority := 3 }
     let beh : AgentTask → HandlerRun := fun _ => { writes := [40], outcome := none }
     (stepN beh 1 (workingState beh t)).agent.status = "working" ∧
     (stepN beh 1 (workingState beh t)).agent.currentTask = some "gen") := by
  exact (C2_lifecycle { id := "w2", kind := "gen", payload := "", priority := 3 }
    (fun _ => { writes := [40], outcome := none })).2.2.2.2.2.2.1 1 (by omega)

/-- error-level SystemLog entries a drain of q produces: one per failed
task, carrying the task kind and the error message. -/
def errorLogs (beh : AgentTask → HandlerRun) (q : List AgentTask) : List LogEntry :=
  q.foldr (fun t acc =>
    (match (beh t).outcome with
     | none => []
     | some e => [failEntry t e]) ++ acc) []

theorem drainLogs_filter_error (beh : AgentTask → HandlerRun) (q : List AgentTask) :
    (drainLogs beh q).filter (fun e => decide (e.level = "error")) = errorLogs beh q := by
  induction q with
  | nil => simp [drainLogs, errorLogs]
  | cons t rest ih =>
      have hcons : drainLogs beh (t :: rest) = taskLogs beh t ++ drainLogs beh rest := rfl
      have hcons2 : errorLogs beh (t :: rest) =
          (match (beh t).outcome with
           | none => []
           | some e => [failEntry t e]) ++ errorLogs beh rest := rfl
      rw [hcons, hcons2, List.filter_append, ih]
      rcases hoc : (beh t).outcome with _ | e
      · simp [taskLogs, outcomeEntry, hoc, startEntry, doneEntry]
      · simp [taskLogs, outcomeEntry, hoc, startEntry, failEntry]

theorem errorLogs_length (beh : AgentTask → HandlerRun) (q : List AgentTask) :
    (errorLogs beh q).length = (q.filter fun t => ((beh t).outcome).isSome).length := by
  induction q with
  | nil => simp [errorLogs]
  | cons t rest ih =>
      have hcons2 : errorLogs beh (t :: rest) =
          (match (beh t).outcome with
           | none => []
           | some e => [failEntry t e]) ++ errorLogs beh rest := rfl
      rw [hcons2]
      rcases hoc : (beh t).outcome with _ | e
      · simp [List.filter_cons, hoc, ih]
      · simp [List.filter_cons, hoc, ih]

/-- C3: a handler that throws does not stop the drain loop: from any
running queue state a full drain dequeues every queued task exactly once
in order, ends with an empty queue (a failing task is dropped, never
retried or requeued), appends for each task its start entry and exactly
one outcome entry, and the error-level SystemLog entries created are
exactly one per failed task. -/
theorem C3_error_isolation (beh : AgentTask → HandlerRun) (q : List AgentTask)
    (s : WState) (hp : s.phase = Phase.loopHead) (hrun : s.isRunning = true)
    (hq : s.taskQueue = q) :
    (stepN beh (drainSteps beh q) s).dequeued = s.dequeued ++ q ∧
    (stepN beh (drainSteps beh q) s).taskQueue = [] ∧
    (stepN beh (drainSteps beh q) s).logs = s.logs ++ drainLogs beh q ∧
    (drainLogs beh q).filter (fun e => decide (e.level = "error")) = errorLogs beh q ∧
    (errorLogs beh q).length = (q.filter fun t => ((beh t).outcome).isSome).length := by
  rw [drain_spec beh q s hp hrun hq]
  exact ⟨rfl, rfl, rfl, drainLogs_filter_error beh q, errorLogs_length beh q⟩

/-- handler behaviour used in concrete error-isolation runs: the task of
kind "boom" throws, the others report progress 10 and succeed. -/
def behC3 : AgentTask → HandlerRun := fun t =>
  if t.kind = "boom" then { writes := [], outcome := some "exploded" }
  else { writes := [10], outcome := none }

def tasksC3 : List AgentTask :=
  [ { id := "a", kind := "ok1", payload := "", priority := 3 },
    { id := "b", kind := "boom", payload := "", priority := 2 },
    { id := "c", kind := "ok2", payload := "", priority := 1 } ]

def stateC3 : WState :=
  { startedWorker behC3 with taskQueue := tasksC3, phase := Phase.loopHead }

/-- C3 witness: a three-task queue whose middle task's handler throws. -/
theorem C3_error_isolation_witness :
    (stepN behC3 (drainSteps behC3 tasksC3) stateC3).dequeued =
      stateC3.dequeued ++ tasksC3 ∧
    (stepN behC3 (drainSteps behC3 tasksC3) stateC3).taskQueue = [] ∧
    (stepN behC3 (drainSteps behC3 tasksC3) stateC3).logs =
      stateC3.logs ++ drainLogs behC3 tasksC3 ∧
    (drainLogs behC3 tasksC3).filter (fun e => decide (e.level = "error")) =
      errorLogs behC3 tasksC3 ∧
    (errorLogs behC3 tasksC3).length =
      (tasksC3.filter fun t => ((behC3 t).outcome).isSome).length :=
  C3_error_isolation behC3 tasksC3 stateC3 rfl rfl rfl

/-- taskError events the outcome of one handler invocation emits. -/
def errEventsOf (t : AgentTask) : Option String → List (String × String)
  | none => []
  | some e => [(t.id, e)]

/-- C5: `stop()` called while a task is executing never aborts that task:
from any state whose drain loop is inside a handler invocation, stopping
persists status "idle" immediately, the loop stays inside the task's
iteration until the handler's remaining progress reports and its outcome
are processed and the finally block has run, and only then does the
while-test observe the cleared flag and exit — the persisted status reads
"idle" at every point from the stop onwards, and the loop exits without
writing "running". -/
theorem C5_cooperative_stop (beh : AgentTask → HandlerRun) (t : AgentTask)
    (ws : List Int) (oc : Option String) (s : WState)
    (hp : s.phase = Phase.execute t ws oc) :
    (stopEv s).agent.status = "idle" ∧
    (∀ j, j ≤ ws.length + 3 → (stepN beh j (stopEv s)).agent.status = "idle") ∧
    (∀ j, j ≤ ws.length + 1 → inTaskB (stepN beh j (stopEv s)).phase = true) ∧
    stepN beh (ws.length + 3) (stopEv s) =
      { isRunning := false, taskQueue := s.taskQueue, currentTask := none,
        agent := { status := "idle", currentTask := none, progress := 0 },
        logs := (s.logs ++ [infoEntry "Agent stopped"]) ++ [outcomeEntry t oc],
        errEvents := s.errEvents ++ errEventsOf t oc,
        dequeued := s.dequeued, phase := Phase.notDraining } := by
  have hp1 : (stopEv s).phase = Phase.execute t ws oc := hp
  have hrem : remInTask beh (stopEv s).phase = some (ws.length + 2) := by
    rw [hp1]; rfl
  have hfinal : stepN beh (ws.length + 3) (stopEv s) =
      { isRunning := false, taskQueue := s.taskQueue, currentTask := none,
        agent := { status := "idle", currentTask := none, progress := 0 },
        logs := (s.logs ++ [infoEntry "Agent stopped"]) ++ [outcomeEntry t oc],
        errEvents := s.errEvents ++ errEventsOf t oc,
        dequeued := s.dequeued, phase := Phase.notDraining } := by
    rw [stepN_add beh ws.length 3, exec_writes_spec beh t oc ws (stopEv s) hp1]
    rcases oc with _ | e
    · simp [stepN, step, stopEv, outcomeEntry, doneEntry, errEventsOf]
    · simp [stepN, step, stopEv, outcomeEntry, failEntry, errEventsOf]
  refine ⟨rfl, ?_, ?_, hfinal⟩
  · intro j hj
    by_cases hle : j ≤ ws.length + 2
    · exact (task_window beh j (ws.length + 2) (stopEv s) hrem hle).1
    · have hje : j = ws.length + 3 := by omega
      rw [hje, hfinal]
  · intro j hj
    exact (task_window beh j (ws.length + 2) (stopEv s) hrem (by omega)).2.2.2.2
      (by omega)

def taskC5 : AgentTask := { id := "t5", kind := "gen", payload := "", priority := 1 }

/-- worker state captured while the handler for taskC5 is mid-flight, with
one progress report (60) still pending and a successful outcome ahead. -/
def stateC5 : WState :=
  { isRunning := true, taskQueue := [], currentTask := some taskC5,
    agent := { status := "working", currentTask := some "gen", progress := 20 },
    logs := [infoEntry "Agent started", startEntry taskC5], errEvents := [],
    dequeued := [taskC5], phase := Phase.execute taskC5 [60] none }

/-- C5 witness: the cooperative-stop property applied to the concrete
mid-execution state. -/
theorem C5_cooperative_stop_witness :
    (stopEv stateC5).agent.status = "idle" ∧
    (stepN (fun _ => { writes := [60], outcome := none }) 2 (stopEv stateC5)).agent.status
      = "idle" ∧
    inTaskB (stepN (fun _ => { writes := [60], outcome := none }) 1 (stopEv stateC5)).phase
      = true ∧
    stepN (fun _ => { writes := [60], outcome := none }) 4 (stopEv stateC5) =
      { isRunning := false, taskQueue := stateC5.taskQueue, currentTask := none,
        agent := { status := "idle", currentTask := none, progress := 0 },
        logs := (stateC5.logs ++ [infoEntry "Agent stopped"]) ++ [outcomeEntry taskC5 none],
        errEvents := stateC5.errEvents, dequeued := stateC5.dequeued,
        phase := Phase.notDraining } := by
  have h := C5_cooperative_stop (fun _ => { writes := [60], outcome := none })
    taskC5 [60] none stateC5 rfl
  exact ⟨h.1, h.2.1 2 (by omega), h.2.2.1 1 (by omega), h.2.2.2⟩

def taskC6 : AgentTask := { id := "t6", kind := "gencode", payload := "", priority := 1 }

def behC6 : AgentTask → HandlerRun := fun _ => { writes := [50], outcome := none }

/-- C6 counterexample: one task whose handler reports progress 50 and
succeeds.  Five segments after the drain enters the loop (pop, start log,
one progress write, completion log, finally block) the task has completed:
its completion entry is in the SystemLog and the finally block has
persisted progress 0 — yet the persisted record still names the task,
currentTask = some "gencode" rather than unset; the field is cleared only
one segment later, when the while-test observes the empty queue and
persists status "running" with currentTask null. -/
theorem C6_counterexample :
    doneEntry taskC6 ∈ (stepN behC6 5 (oneTaskState behC6 taskC6)).logs ∧
    (stepN behC6 5 (oneTaskState behC6 taskC6)).agent.progress = 0 ∧
    (stepN behC6 5 (oneTaskState behC6 taskC6)).currentTask = none ∧
    (stepN behC6 5 (oneTaskState behC6 taskC6)).agent.currentTask = some "gencode" ∧
    (stepN behC6 6 (oneTaskState behC6 taskC6)).agent.currentTask = none := by
  decide

/-- C6 amended: after any task completes (success or failure) the
persisted progress is 0 and the in-memory current task is cleared, but the
persisted currentTask field still names the completed task — it is reset
(together with status returning to "running") only when the drain loop
exits the while with the worker still running, not at task completion
itself. -/
theorem C6_progress_reset (beh : AgentTask → HandlerRun) (t : AgentTask)
    (rest : List AgentTask) (s : WState) (hp : s.phase = Phase.loopHead)
    (hrun : s.isRunning = true) (hq : s.taskQueue = t :: rest) :
    (stepN beh (taskSteps beh t) s).agent.progress = 0 ∧
    (stepN beh (taskSteps beh t) s).currentTask = none ∧
    (stepN beh (taskSteps beh t) s).agent.currentTask = some t.kind ∧
    (stepN beh (drainSteps beh (t :: rest)) s).agent.progress = 0 ∧
    (stepN beh (drainSteps beh (t :: rest)) s).agent.currentTask = none ∧
    (stepN beh (drainSteps beh (t :: rest)) s).agent.status = "running" := by
  rw [task_spec beh t rest s hp hrun hq, drain_spec beh (t :: rest) s hp hrun hq]
  simp

/-- C6 witness: the amended property applied to the one-task scenario. -/
theorem C6_progress_reset_witness :
    (stepN behC6 (taskSteps behC6 taskC6) (oneTaskState behC6 taskC6)).agent.progress = 0 ∧
    (stepN behC6 (taskSteps behC6 taskC6) (oneTaskState behC6 taskC6)).currentTask = none ∧
    (stepN behC6 (taskSteps behC6 taskC6) (oneTaskState behC6 taskC6)).agent.currentTask
      = some taskC6.kind ∧
    (stepN behC6 (drainSteps behC6 [taskC6]) (oneTaskState behC6 taskC6)).agent.progress = 0 ∧
    (stepN behC6 (drainSteps behC6 [taskC6]) (oneTaskState behC6 taskC6)).agent.currentTask
      = none ∧
    (stepN behC6 (drainSteps behC6 [taskC6]) (oneTaskState behC6 taskC6)).agent.status
      = "running" :=
  C6_progress_reset behC6 taskC6 [] (oneTaskState behC6 taskC6) rfl rfl rfl

/-- task kinds the switch in `InfrastructureAgent.executeTask` handles. -/
def infraKinds : List String :=
  ["generate_terraform", "deploy_infrastructure", "monitor_resources"]

/-- task kinds the switch in `LearningAgent.executeTask` handles. -/
def learningKinds : List String :=
  ["analyze_commits", "learn_patterns", "suggest_improvements"]

/-- observable behaviour of `InfrastructureAgent.executeTask`: a known
kind dispatches to the corresponding private method, whose
collaborator-driven behaviour the oracle supplies; the switch's default
branch throws `Unknown task type: <kind>` synchronously, before any
progress report. -/
def infraExecuteTask (oracle : AgentTask → HandlerRun) (t : AgentTask) : HandlerRun :=
  if t.kind ∈ infraKinds then oracle t
  else { writes := [], outcome := some ("Unknown task type: " ++ t.kind) }

/-- observable behaviour of `LearningAgent.executeTask`, with the same
default-branch throw. -/
def learningExecuteTask (oracle : AgentTask → HandlerRun) (t : AgentTask) : HandlerRun :=
  if t.kind ∈ learningKinds then oracle t
  else { writes := [], outcome := some ("Unknown task type: " ++ t.kind) }

/-- C7: a task whose kind has no entry in the owning archetype's handler
table is treated exactly like a task whose handler failed: both tables
produce the synchronous `Unknown task type` throw, the drain loop logs
exactly one error-level entry for the task, drops it (it is never
requeued) and continues with the rest of the queue, finishing with the
worker still running — nothing is raised to the caller of
`addTask`/`assignTask` and the worker does not stop. -/
theorem C7_unknown_kind (oracle oracleL : AgentTask → HandlerRun) (t : AgentTask)
    (rest : List AgentTask) (s : WState) (hp : s.phase = Phase.loopHead)
    (hrun : s.isRunning = true) (hq : s.taskQueue = t :: rest)
    (hki : t.kind ∉ infraKinds) (hkl : t.kind ∉ learningKinds) :
    infraExecuteTask oracle t =
      { writes := [], outcome := some ("Unknown task type: " ++ t.kind) } ∧
    learningExecuteTask oracleL t =
      { writes := [], outcome := some ("Unknown task type: " ++ t.kind) } ∧
    (stepN (infraExecuteTask oracle) (taskSteps (infraExecuteTask oracle) t) s).logs =
      s.logs ++ [startEntry t, failEntry t ("Unknown task type: " ++ t.kind)] ∧
    (stepN (infraExecuteTask oracle) (taskSteps (infraExecuteTask oracle) t) s).taskQueue
      = rest ∧
    (stepN (infraExecuteTask oracle) (taskSteps (infraExecuteTask oracle) t) s).phase
      = Phase.loopHead ∧
    (stepN (infraExecuteTask oracle)
        (drainSteps (infraExecuteTask oracle) (t :: rest)) s).dequeued
      = s.dequeued ++ t :: rest ∧
    (stepN (infraExecuteTask oracle)
        (drainSteps (infraExecuteTask oracle) (t :: rest)) s).agent.status = "running" ∧
    (stepN (infraExecuteTask oracle)
        (drainSteps (infraExecuteTask oracle) (t :: rest)) s).phase = Phase.notDraining := by
  have hinfra : infraExecuteTask oracle t =
      { writes := [], outcome := some ("Unknown task type: " ++ t.kind) } := by
    simp [infraExecuteTask, hki]
  have hlearn : learningExecuteTask oracleL t =
      { writes := [], outcome := some ("Unknown task type: " ++ t.kind) } := by
    simp [learningExecuteTask, hkl]
  refine ⟨hinfra, hlearn, ?_, ?_, ?_, ?_, ?_, ?_⟩
  · rw [task_spec (infraExecuteTask oracle) t rest s hp hrun hq]
    simp [taskLogs, outcomeEntry, hinfra]
  · rw [task_spec (infraExecuteTask oracle) t rest s hp hrun hq]
  · rw [task_spec (infraExecuteTask oracle) t rest s hp hrun hq]
  · rw [drain_spec (infraExecuteTask oracle) (t :: rest) s hp hrun hq]
  · rw [drain_spec (infraExecuteTask oracle) (t :: rest) s hp hrun hq]
  · rw [drain_spec (infraExecuteTask oracle) (t :: rest) s hp hrun hq]

def oracleC7 : AgentTask → HandlerRun := fun _ => { writes := [30], outcome := none }

def taskC7 : AgentTask := { id := "u", kind := "bogus_kind", payload := "", priority := 9 }

def restC7 : List AgentTask :=
  [ { id := "v", kind := "generate_terraform", payload := "", priority := 1 } ]

def stateC7 : WState :=
  { startedWorker (infraExecuteTask oracleC7) with taskQueue := taskC7 :: restC7,
                                                   phase := Phase.loopHead }

/-- C7 witness: an unknown kind followed by a known kind on the
infrastructure worker. -/
theorem C7_unknown_kind_witness :
    infraExecuteTask oracleC7 taskC7 =
      { writes := [], outcome := some ("Unknown task type: " ++ taskC7.kind) } ∧
    learningExecuteTask oracleC7 taskC7 =
      { writes := [], outcome := some ("Unknown task type: " ++ taskC7.kind) } ∧
    (stepN (infraExecuteTask oracleC7)
        (taskSteps (infraExecuteTask oracleC7) taskC7) stateC7).logs =
      stateC7.logs ++
        [startEntry taskC7, failEntry taskC7 ("Unknown task type: " ++ taskC7.kind)] ∧
    (stepN (infraExecuteTask oracleC7)
        (taskSteps (infraExecuteTask oracleC7) taskC7) stateC7).taskQueue = restC7 ∧
    (stepN (infraExecuteTask oracleC7)
        (taskSteps (infraExecuteTask oracleC7) taskC7) stateC7).phase = Phase.loopHead ∧
    (stepN (infraExecuteTask oracleC7)
        (drainSteps (infraExecuteTask oracleC7) (taskC7 :: restC7)) stateC7).dequeued
      = stateC7.dequeued ++ taskC7 :: restC7 ∧
    (stepN (infraExecuteTask oracleC7)
        (drainSteps (infraExecuteTask oracleC7) (taskC7 :: restC7)) stateC7).agent.status
      = "running" ∧
    (stepN (infraExecuteTask oracleC7)
        (drainSteps (infraExecuteTask oracleC7) (taskC7 :: restC7)) stateC7).phase
      = Phase.notDraining :=
  C7_unknown_kind oracleC7 oracleC7 taskC7 restC7 stateC7 rfl rfl rfl
    (by decide) (by decide)

/-- persisted Agent row fields `AgentManager` reads: id, `type` (called
agentType here) and status. -/
structure StoredAgent where
  id : Nat
  agentType : String
  status : String
  deriving Repr, DecidableEq

/-- state the AgentManager closes over: the persistence store's agent rows
in insertion order (`MemStorage.getAgents` returns the JavaScript Map's
values, which iterate in insertion order) and the manager's in-memory
id-keyed `Map` of started workers, also in insertion order. -/
structure MgrState where
  stored : List StoredAgent
  workers : List (Nat × WState)
  deriving Repr, DecidableEq

/-- MemStorage.getAgent: lookup of the row with the given id. -/
def getAgent (m : MgrState) (id : Nat) : Option StoredAgent :=
  m.stored.find? (fun a => a.id == id)

/-- status write a worker's `updateStatus` performs through
`MemStorage.updateAgent` on its own row (a merge; a missing id is a
no-op). -/
def updateStored (rows : List StoredAgent) (id : Nat) (st : String) : List StoredAgent :=
  rows.map (fun a => if a.id == id then { a with status := st } else a)

/-- `this.agents.get(id)` on the manager's worker map (keys are unique, so
the first matching entry is the entry). -/
def wlookup : List (Nat × WState) → Nat → Option WState
  | [], _ => none
  | p :: rest, id => if p.1 == id then some p.2 else wlookup rest id

/-- `this.agents.delete(id)` on the manager's worker map. -/
def wremove (ws : List (Nat × WState)) (id : Nat) : List (Nat × WState) :=
  ws.filter (fun p => !(p.1 == id))

/-- archetype tags the switch in `AgentManager.startAgent` accepts. -/
def knownAgentTypes : List String := ["code_generator", "infrastructure", "learning"]

/-- worker value right after `startAgent` registered it and its `start()`
call (including the initial drain of the empty queue) settled. -/
def freshStartedWorker : WState :=
  stepN (fun _ => { writes := [], outcome := none }) 1 (startEv initWState)

/-- AgentManager.startAgent: look up the persisted row (typed error when
absent), return unchanged when a worker is already registered for the id,
otherwise construct the archetype worker (typed error on an unknown type
tag), register it in the map and call `start()` on it, which persists
status "running" on the row. -/
def startAgent (m : MgrState) (id : Nat) : Except String MgrState :=
  match getAgent m id with
  | none => Except.error ("Agent " ++ toString id ++ " not found")
  | some a =>
      if (wlookup m.workers id).isSome then Except.ok m
      else if a.agentType ∈ knownAgentTypes then
        Except.ok { stored := updateStored m.stored id "running",
                    workers := m.workers ++ [(id, freshStartedWorker)] }
      else Except.error ("Unknown agent type: " ++ a.agentType)

/-- AgentManager.stopAgent: when a worker is registered for the id, call
`stop()` on it (which persists status "idle" on the row) and delete the
map entry; the code has no else branch, so an unregistered id produces no
error and no change. -/
def stopAgent (m : MgrState) (id : Nat) : Except String MgrState :=
  match wlookup m.workers id with
  | none => Except.ok m
  | some _ =>
      Except.ok { stored := updateStored m.stored id "idle",
                  workers := wremove m.workers id }

/-- AgentManager.assignTask: read all persisted agents and select the
first whose type matches and whose status is exactly "running"
(`a.type === agentType && a.status === 'running'`); no match is a typed
error; otherwise, when a worker is registered for the selected id the task
is enqueued on it with `addTask`, and when none is registered the
`if (agentInstance)` guard (which has no else branch) skips the enqueue
and the call still succeeds. -/
def assignTask (m : MgrState) (agentType : String) (t : AgentTask) :
    Except String MgrState :=
  match m.stored.find? (fun a => a.agentType == agentType && a.status == "running") with
  | none => Except.error ("No running agent of type " ++ agentType ++ " found")
  | some target =>
      match wlookup m.workers target.id with
      | none => Except.ok m
      | some _ =>
          Except.ok { m with workers := (m.workers.map
              (fun p => if p.1 == target.id then (p.1, addTaskEv t p.2) else p)) }

theorem wlookup_map_update (ws : List (Nat × WState)) (id : Nat)
    (f : WState → WState) {w : WState} (hw : wlookup ws id = some w) :
    wlookup (ws.map (fun p => if p.1 == id then (p.1, f p.2) else p)) id
      = some (f w) := by
  induction ws with
  | nil => simp [wlookup] at hw
  | cons p rest ih =>
      cases hbe : (p.1 == id) with
      | true =>
          simp only [wlookup, hbe, if_true, Option.some.injEq] at hw
          simp [wlookup, hbe, hw]
      | false =>
          simp only [wlookup, hbe, if_false] at hw
          simp [wlookup, hbe] at ih ⊢
          exact ih hw

theorem wlookup_wremove (ws : List (Nat × WState)) (id : Nat) :
    wlookup (wremove ws id) id = none := by
  induction ws with
  | nil => rfl
  | cons p rest ih =>
      cases hbe : (p.1 == id) with
      | true =>
          unfold wremove at ih ⊢
          simpa [List.filter_cons, hbe] using ih
      | false =>
          unfold wremove at ih ⊢
          simp only [List.filter_cons, hbe, Bool.not_false, if_true]
          simpa [wlookup, hbe] using ih

/-- C4 counterexample: a persisted infrastructure agent whose status is
"working" (its worker is mid-task and still registered); the claim
requires assignTask to select an agent with status "running" or
"working", but the code's filter admits only status "running", so the
call fails with the typed error instead of enqueuing. -/
theorem C4_counterexample :
    assignTask
      { stored := [{ id := 1, agentType := "infrastructure", status := "working" }],
        workers := [(1, freshStartedWorker)] }
      "infrastructure"
      { id := "t", kind := "generate_terraform", payload := "", priority := 5 }
    = Except.error "No running agent of type infrastructure found" := by
  rfl

/-- C4 amended: assignTask selects the first persisted Agent whose
archetype matches and whose status is exactly "running" — an agent whose
status is "working" is not eligible — and enqueues the task on that
agent's registered in-memory Worker when one is registered; it fails with
a typed error exactly when no Agent of that archetype has status
"running". -/
theorem C4_assign_running_only (m : MgrState) (atype : String) (t : AgentTask) :
    ((∃ e, assignTask m atype t = Except.error e) ↔
      ¬ ∃ a ∈ m.stored, a.agentType = atype ∧ a.status = "running") ∧
    (∀ a, m.stored.find? (fun a2 => a2.agentType == atype && a2.status == "running")
        = some a →
      ∀ w, wlookup m.workers a.id = some w →
        ∃ m2, assignTask m atype t = Except.ok m2 ∧
          wlookup m2.workers a.id = some (addTaskEv t w)) := by
  constructor
  · rcases hf : m.stored.find?
        (fun a2 => a2.agentType == atype && a2.status == "running") with _ | tgt
    · have hnone := List.find?_eq_none.mp hf
      constructor
      · intro _
        rintro ⟨a, ha, h1, h2⟩
        exact hnone a ha (by simp [h1, h2])
      · intro _
        refine ⟨"No running agent of type " ++ atype ++ " found", ?_⟩
        unfold assignTask
        rw [hf]
    · have htgt := List.find?_some hf
      have hmem := List.mem_of_find?_eq_some hf
      simp only [Bool.and_eq_true, beq_iff_eq] at htgt
      constructor
      · rintro ⟨e, he⟩
        unfold assignTask at he
        rw [hf] at he
        rcases hw : wlookup m.workers tgt.id with _ | w <;> simp [hw] at he
      · intro h2
        exact absurd ⟨tgt, hmem, htgt.1, htgt.2⟩ h2
  · intro a hfa w hw
    unfold assignTask
    simp only [hfa, hw]
    exact ⟨_, rfl, wlookup_map_update m.workers a.id (addTaskEv t) hw⟩

def agentC4 : StoredAgent := { id := 1, agentType := "infrastructure", status := "running" }

def mgrC4 : MgrState := { stored := [agentC4], workers := [(1, freshStartedWorker)] }

def taskC4 : AgentTask :=
  { id := "t4", kind := "generate_terraform", payload := "", priority := 5 }

/-- C4 witness: the amended assignment property applied to a store with a
single running infrastructure agent whose worker is registered. -/
theorem C4_assign_running_only_witness :
    ∃ m2, assignTask mgrC4 "infrastructure" taskC4 = Except.ok m2 ∧
      wlookup m2.workers agentC4.id = some (addTaskEv taskC4 freshStartedWorker) :=
  (C4_assign_running_only mgrC4 "infrastructure" taskC4).2 agentC4 rfl
    freshStartedWorker rfl

/-- C8 counterexample: stopAgent on id 7, for which no Worker is
registered, returns success with the manager state unchanged — the typed
"not found" failure the claim requires is never produced. -/
theorem C8_counterexample :
    stopAgent { stored := [], workers := [] } 7 =
      Except.ok { stored := [], workers := [] } := by
  rfl

/-- C8 amended: calling stopAgent on an id for which no Worker is
registered in the Registry's map is a silent no-op — it returns success
with the state unchanged and surfaces nothing; among the lifecycle calls
only startAgent surfaces the typed "not found" failure, for a missing
persisted id.  For a registered id, stopAgent stops the worker, persists
status "idle" and removes the map entry. -/
theorem C8_stop_unregistered_noop (m : MgrState) (id : Nat) :
    (wlookup m.workers id = none → stopAgent m id = Except.ok m) ∧
    (getAgent m id = none →
      startAgent m id = Except.error ("Agent " ++ toString id ++ " not found")) ∧
    (∀ w, wlookup m.workers id = some w →
      stopAgent m id = Except.ok { stored := updateStored m.stored id "idle",
                                   workers := wremove m.workers id } ∧
      wlookup (wremove m.workers id) id = none) := by
  refine ⟨?_, ?_, ?_⟩
  · intro h
    unfold stopAgent
    simp only [h]
  · intro h
    unfold startAgent
    simp only [h]
  · intro w hw
    unfold stopAgent
    simp only [hw]
    exact ⟨trivial, wlookup_wremove m.workers id⟩

def mgrC8 : MgrState :=
  { stored := [{ id := 2, agentType := "learning", status := "running" }],
    workers := [(2, freshStartedWorker)] }

/-- C8 witness: the amended property applied to a manager with one
registered learning worker, probed at the unregistered id 9 and the
registered id 2. -/
theorem C8_stop_unregistered_noop_witness :
    (stopAgent mgrC8 9 = Except.ok mgrC8) ∧
    (startAgent mgrC8 9 = Except.error ("Agent " ++ toString 9 ++ " not found")) ∧
    (stopAgent mgrC8 2 = Except.ok { stored := updateStored mgrC8.stored 2 "idle",
                                     workers := wremove mgrC8.workers 2 } ∧
      wlookup (wremove mgrC8.workers 2) 2 = none) :=
  ⟨(C8_stop_unregistered_noop mgrC8 9).1 rfl,
   (C8_stop_unregistered_noop mgrC8 9).2.1 rfl,
   (C8_stop_unregistered_noop mgrC8 2).2.2 freshStartedWorker rfl⟩

def keysOf (ws : List (Nat × WState)) : List Nat := ws.map Prod.fst

inductive MgrOp where
  | startOp : Nat → MgrOp
  | stopOp : Nat → MgrOp
  deriving Repr, DecidableEq

/-- apply one manager call; when the call throws, the route layer catches
the error and the manager state is unchanged. -/
def applyOp (m : MgrState) : MgrOp → MgrState
  | MgrOp.startOp id =>
      match startAgent m id with
      | Except.ok m2 => m2
      | Except.error _ => m
  | MgrOp.stopOp id =>
      match stopAgent m id with
      | Except.ok m2 => m2
      | Except.error _ => m

def applyOps (m : MgrState) (ops : List MgrOp) : MgrState :=
  ops.foldl applyOp m

theorem wlookup_none_not_mem {ws : List (Nat × WState)} {id : Nat}
    (h : wlookup ws id = none) : id ∉ keysOf ws := by
  induction ws with
  | nil => simp [keysOf]
  | cons p rest ih =>
      cases hbe : (p.1 == id) with
      | true => simp [wlookup, hbe] at h
      | false =>
          simp only [wlookup, hbe, if_false] at h
          simp only [keysOf, List.map_cons, List.mem_cons]
          rintro (h1 | h2)
          · rw [← h1] at hbe
            simp at hbe
          · exact ih h h2

theorem nodup_after_startAgent {m : MgrState} {id : Nat} {m2 : MgrState}
    (h : (keysOf m.workers).Nodup) (hok : startAgent m id = Except.ok m2) :
    (keysOf m2.workers).Nodup := by
  unfold startAgent at hok
  rcases hga : getAgent m id with _ | a
  · rw [hga] at hok
    simp at hok
  · simp only [hga] at hok
    rcases hwl : wlookup m.workers id with _ | w
    · simp only [hwl, Option.isSome_none, Bool.false_eq_true, if_false] at hok
      by_cases hk : a.agentType ∈ knownAgentTypes
      · rw [if_pos hk] at hok
        simp only [Except.ok.injEq] at hok
        subst hok
        simp only [keysOf, List.map_append]
        rw [List.nodup_append]
        refine ⟨h, by simp, ?_⟩
        intro x hx
        simp only [List.map_cons, List.map_nil, List.mem_singleton]
        intro hxid
        subst hxid
        exact wlookup_none_not_mem hwl hx
      · rw [if_neg hk] at hok
        simp at hok
    · simp only [hwl, Option.isSome_some, if_true, Except.ok.injEq] at hok
      subst hok
      exact h

theorem nodup_after_stopAgent {m : MgrState} {id : Nat} {m2 : MgrState}
    (h : (keysOf m.workers).Nodup) (hok : stopAgent m id = Except.ok m2) :
    (keysOf m2.workers).Nodup := by
  unfold stopAgent at hok
  rcases hwl : wlookup m.workers id with _ | w
  · simp only [hwl, Except.ok.injEq] at hok
    subst hok
    exact h
  · simp only [hwl, Except.ok.injEq] at hok
    subst hok
    exact List.Nodup.sublist (List.Sublist.map Prod.fst (List.filter_sublist _)) h

theorem nodup_applyOp {m : MgrState} (h : (keysOf m.workers).Nodup) (op : MgrOp) :
    (keysOf (applyOp m op).workers).Nodup := by
  cases op with
  | startOp id =>
      rcases hs : startAgent m id with e | m2
      · simp only [applyOp, hs]
        exact h
      · simp only [applyOp, hs]
        exact nodup_after_startAgent h hs
  | stopOp id =>
      rcases hs : stopAgent m id with e | m2
      · simp only [applyOp, hs]
        exact h
      · simp only [applyOp, hs]
        exact nodup_after_stopAgent h hs

theorem nodup_applyOps : ∀ (ops : List MgrOp) (m : MgrState),
    (keysOf m.workers).Nodup → (keysOf (applyOps m ops).workers).Nodup := by
  intro ops
  induction ops with
  | nil => intro m h; exact h
  | cons op ops ih =>
      intro m h
      exact ih (applyOp m op) (nodup_applyOp h op)

/-- C9: for every sequence of startAgent and stopAgent calls, the
Registry's id-keyed map never holds two Worker entries for the same Agent
id (its key list stays duplicate-free), and a second startAgent for an
already-registered id whose persisted row exists is a no-op returning the
manager unchanged. -/
theorem C9_single_worker_per_id (m0 : MgrState) (ops : List MgrOp)
    (h0 : (keysOf m0.workers).Nodup) :
    (keysOf (applyOps m0 ops).workers).Nodup ∧
    (∀ id a w, getAgent m0 id = some a → wlookup m0.workers id = some w →
      startAgent m0 id = Except.ok m0) := by
  refine ⟨nodup_applyOps ops m0 h0, ?_⟩
  intro id a w hga hw
  unfold startAgent
  simp only [hga, hw, Option.isSome_some, if_true]

def mgrC9 : MgrState :=
  { stored := [{ id := 1, agentType := "infrastructure", status := "idle" }],
    workers := [(1, freshStartedWorker)] }

def opsC9 : List MgrOp :=
  [MgrOp.startOp 1, MgrOp.startOp 1, MgrOp.stopOp 1, MgrOp.startOp 1]

/-- C9 witness: a start/start/stop/start sequence on one id. -/
theorem C9_single_worker_per_id_witness :
    (keysOf (applyOps mgrC9 opsC9).workers).Nodup ∧
    startAgent mgrC9 1 = Except.ok mgrC9 := by
  have h := C9_single_worker_per_id mgrC9 opsC9 (by decide)
  exact ⟨h.1, h.2 1 { id := 1, agentType := "infrastructure", status := "idle" }
    freshStartedWorker rfl rfl⟩

/-- C10: when the store's first row matching the archetype-and-"running"
filter exists but no in-memory Worker is registered under its id (for
example after a process restart without startAgent), assignTask returns
success with the manager state unchanged: the task is enqueued on no
worker — silently discarded rather than failing. -/
theorem C10_silent_discard (m : MgrState) (atype : String) (t : AgentTask)
    (a : StoredAgent)
    (hfind : m.stored.find? (fun a2 => a2.agentType == atype && a2.status == "running")
       = some a)
    (hnw : wlookup m.workers a.id = none) :
    assignTask m atype t = Except.ok m := by
  unfold assignTask
  simp only [hfind, hnw]

/-- C10 witness: a store listing a running infrastructure agent, with an
empty worker map, as after a process restart. -/
theorem C10_silent_discard_witness :
    assignTask
      { stored := [{ id := 3, agentType := "infrastructure", status := "running" }],
        workers := [] }
      "infrastructure"
      { id := "t10", kind := "generate_terraform", payload := "", priority := 2 }
    = Except.ok
      { stored := [{ id := 3, agentType := "infrastructure", status := "running" }],
        workers := [] } :=
  C10_silent_discard _ _ _ { id := 3, agentType := "infrastructure", status := "running" }
    rfl rfl

end TerraformLLM
